import Mathlib

/-!
Verification development for the ExpoCLI query-execution engine
(`QueryExecutor` in the repository's `query_executor.cpp`).

The executor consumes a parsed `Query` AST and evaluates it over a list of
XML documents, producing tabular `ResultRow`s.  The embedding below models:

* the AST data types (`FieldPath`, `ComparisonOp`, `WhereExpr`, `ForClause`,
  `Query`) from `parser/ast.h` as consumed by the executor;
* XML documents as finite rose trees (`XmlTree`, with child lists as the
  mutually inductive `XmlForest`); a document handle (`pugi::xml_document`)
  is a nameless node owning a forest of children, so document-level
  operations take an `XmlForest`;
* the `XmlNavigator` helper functions (partial path matching, first-element
  lookup, WHERE evaluation, value extraction), whose implementation file is
  not part of the sources at hand — those are modelled from the spec and
  are marked as such in their doc comments;
* every function of `QueryExecutor` itself, translated statement by
  statement from `query_executor.cpp`.

File enumeration (`getXmlFiles`) and document loading are filesystem
effects; they are modelled by giving the executor its resolved file list as
a `List XFile`, where an `XFile` carries the file name and `Option` of the
parsed document (`none` models a load failure, i.e. `XmlLoader::load`
throwing).  `std::stod` is modelled as an exact scaled-decimal parser
(optional whitespace, optional sign, digits with an optional fractional
part; exponents, hex, inf and nan are omitted — no comparison this
development performs depends on them, and every literal it evaluates is
exactly representable as an IEEE double, so exact decimal comparison agrees
with double comparison).  C++ `std::string` ordering is byte-wise; Lean
code-point ordering over the character list coincides with it on UTF-8.
-/

/-- One name segment sequence of a SELECT / WHERE / FOR path, plus the flag
marking the synthetic source-identifier pseudo-field (`FILE_NAME`). -/
structure FieldPath where
  components : List String
  include_filename : Bool
deriving DecidableEq, Repr

instance : Inhabited FieldPath := ⟨⟨[], false⟩⟩

/-- Comparison operators of a WHERE condition. -/
inductive ComparisonOp where
  | eq | ne | lt | le | gt | ge | isNull | isNotNull
deriving DecidableEq, Repr

/-- Connector of a logical WHERE composition. -/
inductive LogicalOp where
  | and | or
deriving DecidableEq, Repr

/-- WHERE expression tree: the source's two-variant class hierarchy
(`WhereCondition` / `WhereLogical`) as a sum type. -/
inductive WhereExpr where
  | cond (field : FieldPath) (op : ComparisonOp) (literal : String)
      (numeric_hint : Bool)
  | logical (op : LogicalOp) (left right : WhereExpr)
deriving DecidableEq, Repr

/-- FOR clause: an iteration variable bound to an iteration-root path. -/
structure ForClause where
  var_name : String
  path : FieldPath
deriving DecidableEq, Repr

/-- The query AST consumed by the executor.  `limit` is the C++ `int` with
a negative sentinel meaning "no LIMIT"; `whereExpr` renders the C++ member
`where` (a Lean keyword). -/
structure Query where
  from_path : String
  select_fields : List FieldPath
  whereExpr : Option WhereExpr
  for_clauses : List ForClause
  order_by_fields : List String
  limit : Int
deriving DecidableEq, Repr

/-- A result row: ordered (column-name, value) pairs. -/
abbrev ResultRow := List (String × String)

mutual
/-- An XML element node: tag name, textual content (pugixml `child_value`,
the first PCDATA child), and the ordered child elements. -/
inductive XmlTree where
  | elem (name text : String) (children : XmlForest)

/-- An ordered forest of sibling elements (the child list of an element or
of the document node). -/
inductive XmlForest where
  | nil
  | cons (head : XmlTree) (tail : XmlForest)
end

/-- Tag name of a node. -/
def XmlTree.name : XmlTree → String
  | .elem n _ _ => n

/-- Textual content of a node (`child_value()`). -/
def XmlTree.text : XmlTree → String
  | .elem _ s _ => s

/-- Child elements of a node. -/
def XmlTree.children : XmlTree → XmlForest
  | .elem _ _ cs => cs

/-- Build a forest from a list of trees (notation helper for concrete
documents). -/
def XmlForest.ofList : List XmlTree → XmlForest
  | [] => .nil
  | t :: ts => .cons t (XmlForest.ofList ts)

/-- Whether some root of the forest satisfies the predicate. -/
def XmlForest.anyTop : XmlForest → (XmlTree → Bool) → Bool
  | .nil, _ => false
  | .cons t rest, p => p t || XmlForest.anyTop rest p

/-- A resolved input file: its base name and the loaded document (`none`
models a load failure / exception). -/
structure XFile where
  name : String
  doc : Option XmlForest

instance : Inhabited XFile := ⟨⟨"", none⟩⟩

/-- Execution statistics reported by `executeWithProgress` (elapsed wall
time is real time and is not modelled). -/
structure ExecutionStats where
  total_files : Nat
  thread_count : Nat
  used_threading : Bool
deriving DecidableEq, Repr

mutual
/-- All nodes of a subtree in document (depth-first, pre-order) order. -/
def preorderT : XmlTree → List XmlTree
  | .elem n s cs => .elem n s cs :: preorderF cs

/-- All nodes of a forest in document (depth-first, pre-order) order. -/
def preorderF : XmlForest → List XmlTree
  | .nil => []
  | .cons t rest => preorderT t ++ preorderF rest
end

mutual
/-- Every node of a subtree paired with the name trail leading to it from
the owner of the enclosing forest (trail `pre` leads to the subtree). -/
def trailsT (pre : List String) : XmlTree → List (List String × XmlTree)
  | .elem n s cs => (pre ++ [n], .elem n s cs) :: trailsF (pre ++ [n]) cs

/-- Every node of a forest paired with its name trail; used to decide
suffix matches. -/
def trailsF (pre : List String) : XmlForest → List (List String × XmlTree)
  | .nil => []
  | .cons t rest => trailsT pre t ++ trailsF pre rest
end

/-- Modelled from the spec: `XmlNavigator::findNodesByPartialPath` (its
implementation file is not among the sources).  Partial path matching per
the spec's PathMatcher contract: all descendants of the owner of `forest`
that end a downward chain of element names equal to `comps`, the chain
lying anywhere strictly below the owner; results in document order; an
empty component list matches nothing. -/
def findNodesByPartialPath (forest : XmlForest) (comps : List String) :
    List XmlTree :=
  if comps.isEmpty then []
  else (trailsF [] forest).filterMap
    (fun p => if comps.isSuffixOf p.1 then some p.2 else none)

/-- Modelled from the spec: `XmlNavigator::countMatchingPaths` — the number
of partial-path matches, used for ambiguity detection. -/
def countMatchingPaths (forest : XmlForest) (comps : List String) : Nat :=
  (findNodesByPartialPath forest comps).length

mutual
/-- First node of the subtree (root included), depth-first pre-order,
whose tag equals `c`. -/
def findFirstInTree : XmlTree → String → Option XmlTree
  | .elem n s cs, c =>
      if n == c then some (.elem n s cs) else findFirstInForest cs c

/-- First node of the forest, depth-first pre-order, whose tag equals
`c`. -/
def findFirstInForest : XmlForest → String → Option XmlTree
  | .nil, _ => none
  | .cons t rest, c =>
      match findFirstInTree t c with
      | some m => some m
      | none => findFirstInForest rest c
end

/-- Modelled from the spec: `XmlNavigator::findFirstElementByName` — the
first descendant element of the owner of `forest`, depth-first pre-order,
whose tag equals `c`. -/
def findFirstElementByName (forest : XmlForest) (c : String) :
    Option XmlTree :=
  findFirstInForest forest c

/-- Modelled from the spec: `findFirstElementByName` paired with the
`foundNode.parent() == node` test used by `processFile`'s shorthand WHERE
walk — the returned flag is true exactly when the first depth-first
pre-order descendant named `c` is a root of `forest` (i.e. a direct child
of the owner node). -/
def findFirstDirectFlag : XmlForest → String → Option (XmlTree × Bool)
  | .nil, _ => none
  | .cons t rest, c =>
      if t.name == c then some (t, true)
      else
        match findFirstInForest t.children c with
        | some m => some (m, false)
        | none => findFirstDirectFlag rest c

/-- Byte-wise strict ordering on character lists (the C++
`std::string::operator<`). -/
def charListLt : List Char → List Char → Bool
  | [], [] => false
  | [], _ :: _ => true
  | _ :: _, [] => false
  | a :: as, b :: bs =>
      if a.toNat < b.toNat then true
      else if b.toNat < a.toNat then false
      else charListLt as bs

/-- Ordinal string ordering (byte-wise; code-point order over the
character list coincides with UTF-8 byte order). -/
def strLtB (a b : String) : Bool :=
  charListLt a.toList b.toList

/-- Decimal digit run to a natural number. -/
def digitsVal (l : List Char) : Nat :=
  l.foldl (fun acc c => acc * 10 + (c.toNat - 48)) 0

/-- An exact scaled decimal: the value `num / 10 ^ scale`.  Stands in for
the IEEE doubles of the source; every literal this development evaluates is
exactly representable as a double, so comparisons agree. -/
structure DecNum where
  num : Int
  scale : Nat
deriving DecidableEq, Repr

/-- Strict order on scaled decimals via cross multiplication. -/
def DecNum.ltb (x y : DecNum) : Bool :=
  decide (x.num * ((10 : Nat) ^ y.scale : Int) <
    y.num * ((10 : Nat) ^ x.scale : Int))

/-- Equality of scaled decimals via cross multiplication. -/
def DecNum.eqb (x y : DecNum) : Bool :=
  decide (x.num * ((10 : Nat) ^ y.scale : Int) =
    y.num * ((10 : Nat) ^ x.scale : Int))

/-- Model of `std::stod`: skip leading whitespace, optional sign, then a
decimal number `digits[.digits]`, at least one digit overall; trailing
garbage is ignored, a parse with no digits fails (the C++ call throws). -/
def stod? (s : String) : Option DecNum :=
  let l := s.toList.dropWhile Char.isWhitespace
  let signed : Bool × List Char :=
    match l with
    | '+' :: rest => (false, rest)
    | '-' :: rest => (true, rest)
    | _ => (false, l)
  let ds1 := signed.2.takeWhile Char.isDigit
  let r1 := signed.2.dropWhile Char.isDigit
  let ds2 :=
    match r1 with
    | '.' :: rest => rest.takeWhile Char.isDigit
    | _ => []
  if ds1.isEmpty && ds2.isEmpty then none
  else
    let mag : Int := digitsVal (ds1 ++ ds2)
    some ⟨if signed.1 then -mag else mag, ds2.length⟩

/-- Numeric comparison dispatch (both operands already parsed). -/
def numCompare (op : ComparisonOp) (x y : DecNum) : Bool :=
  match op with
  | .eq => DecNum.eqb x y
  | .ne => !DecNum.eqb x y
  | .lt => DecNum.ltb x y
  | .le => !DecNum.ltb y x
  | .gt => DecNum.ltb y x
  | .ge => !DecNum.ltb x y
  | .isNull => false
  | .isNotNull => false

/-- Ordinal string comparison dispatch. -/
def strCompare (op : ComparisonOp) (a b : String) : Bool :=
  match op with
  | .eq => a == b
  | .ne => a != b
  | .lt => strLtB a b
  | .le => !strLtB b a
  | .gt => strLtB b a
  | .ge => !strLtB a b
  | .isNull => false
  | .isNotNull => false

/-- Modelled from the spec: the navigator's comparison semantics — if both
operands parse as numbers compare numerically, otherwise compare as ordinal
strings; a failed numeric parse falls back to string comparison rather than
erroring.  With that fallback the `numeric_hint` flag cannot change the
outcome (hinted-but-unparsable still falls back; unhinted-but-parsable
still compares numerically), so the flag is accepted and ignored. -/
def compareValues (a b : String) (op : ComparisonOp) (_hint : Bool) : Bool :=
  match stod? a, stod? b with
  | some x, some y => numCompare op x y
  | _, _ => strCompare op a b

/-- Modelled from the spec: `XmlNavigator::evaluateWhereExpr`.  A condition
resolves its field relative to the context node by partial path matching on
the components with the already-matched `depth`-long prefix skipped, first
match in document order; an unresolved field is null.  `IS_NULL` /
`IS_NOT_NULL` test resolvability; other operators compare the resolved
value (empty string when null) against the literal.  Logical nodes combine
recursively (Lean's `&&` / `||` are the source's short-circuit forms). -/
def evaluateWhereExpr (forest : XmlForest) (e : WhereExpr) (depth : Nat) :
    Bool :=
  match e with
  | .cond f op lit hint =>
      let v := (findNodesByPartialPath forest (f.components.drop depth)).head?
        |>.map XmlTree.text
      match op with
      | .isNull => v.isNone
      | .isNotNull => v.isSome
      | _ => compareValues (v.getD "") lit op hint
  | .logical .and l r =>
      evaluateWhereExpr forest l depth && evaluateWhereExpr forest r depth
  | .logical .or l r =>
      evaluateWhereExpr forest l depth || evaluateWhereExpr forest r depth

/-- Modelled from the spec: `XmlNavigator::extractValues` — all values of a
field across the whole document, in document order; the source-identifier
pseudo-field yields the file's identifier. -/
def extractValues (doc : XmlForest) (filename : String) (f : FieldPath) :
    List String :=
  if f.include_filename then [filename]
  else (findNodesByPartialPath doc f.components).map XmlTree.text

/-- Mirrors `extractFieldPathFromWhere` (query_executor.cpp): the field of
the first condition on the left spine of a WHERE tree; a default-constructed
`FieldPath` for a null expression. -/
def extractFieldPathFromWhereExpr : WhereExpr → FieldPath
  | .cond f _ _ _ => f
  | .logical _ l _ => extractFieldPathFromWhereExpr l

/-- The null-pointer-accepting wrapper the executor actually calls. -/
def extractFieldPathFromWhere : Option WhereExpr → FieldPath
  | none => default
  | some e => extractFieldPathFromWhereExpr e

/-- Column name of a select field, as computed at every row-building site:
the synthetic `FILE_NAME` label for the source-identifier field, else the
field's last path component (`components.back()`). -/
def fieldNameOf (f : FieldPath) : String :=
  if f.include_filename then "FILE_NAME" else f.components.getLastD ""

/-- Field extraction relative to a context node (given by its child
forest), shared verbatim by the FOR-clause, shorthand-WHERE and
anchored-WHERE row builders: the file name for the source-identifier field;
first-element lookup for a single-component path; first partial-path match
otherwise (which also covers the empty path: no match, empty string). -/
def extractAtF (forest : XmlForest) (f : FieldPath) (filename : String) :
    String :=
  if f.include_filename then filename
  else
    match f.components with
    | [c] => ((findFirstElementByName forest c).map XmlTree.text).getD ""
    | cs => (((findNodesByPartialPath forest cs).head?).map XmlTree.text).getD ""

/-- One result row built from a context node: the select fields in order,
each as (column name, extracted value). -/
def mkRowF (q : Query) (filename : String) (forest : XmlForest) :
    ResultRow :=
  q.select_fields.map (fun f => (fieldNameOf f, extractAtF forest f filename))

/-- Maximum length over the per-field value lists (`maxResults`). -/
def maxResults (frs : List (List String)) : Nat :=
  (frs.map List.length).foldr max 0

/-- Row `i` of the plain-projection strategy: the `i`-th value of each
field's list, empty string past the end (`getD`). -/
def plainRow (pairs : List (FieldPath × List String)) (i : Nat) : ResultRow :=
  pairs.map (fun p => (fieldNameOf p.1, p.2.getD i ""))

/-- Plain-projection strategy (no WHERE, no FOR), query_executor.cpp lines
355-402: extract every field's full value list, then cross-index rows `0`
to `maxResults - 1`. -/
def plainRows (q : Query) (doc : XmlForest) (filename : String) :
    List ResultRow :=
  if q.select_fields.isEmpty then []
  else
    (List.range (maxResults
        (q.select_fields.map (fun f => extractValues doc filename f)))).map
      (fun i => plainRow (q.select_fields.zip
        (q.select_fields.map (fun f => extractValues doc filename f))) i)

/-- Whether the WHERE expression is, at top level, a null-check condition
(the `dynamic_cast` at lines 417-420). -/
def isNullCheckTop : Option WhereExpr → Bool
  | some (.cond _ op _ _) => op == .isNull || op == .isNotNull
  | _ => false

/-- The `shouldEvaluate` decision of the shorthand WHERE walk (lines
428-449) at an element node given by its child forest: for a null check, an
element having some single-component non-source-identifier select field
whose first depth-first descendant of that name is a direct child; else an
element whose first depth-first descendant named after the anchor component
is a direct child. -/
def shouldEvalShort (q : Query) (c : String) (isNull : Bool)
    (children : XmlForest) : Bool :=
  if isNull then
    q.select_fields.any (fun f =>
      !f.include_filename && f.components.length == 1 &&
        (((findFirstDirectFlag children (f.components.headD "")).map
          Prod.snd).getD false))
  else (((findFirstDirectFlag children c).map Prod.snd).getD false)

mutual
/-- The recursive `searchTree` closure of the shorthand WHERE strategy
(lines 422-494) at one node: emit a row when `shouldEvaluate` holds and the
WHERE expression passes at that node, then recurse into the children. -/
def searchTreeT (q : Query) (fn c : String) (isNull : Bool) (e : WhereExpr) :
    XmlTree → List ResultRow
  | .elem _n _s cs =>
      (if shouldEvalShort q c isNull cs && evaluateWhereExpr cs e 0
        then [mkRowF q fn cs] else []) ++
      searchTreeF q fn c isNull e cs

/-- The `searchTree` walk over a sibling forest, in document order. -/
def searchTreeF (q : Query) (fn c : String) (isNull : Bool) (e : WhereExpr) :
    XmlForest → List ResultRow
  | .nil => []
  | .cons t rest =>
      searchTreeT q fn c isNull e t ++ searchTreeF q fn c isNull e rest
end

/-- Shorthand WHERE strategy (anchor with fewer than 2 components): the
walk starts at the document node itself, which is not an element (so never
eligible for a null check) but, in the non-null branch, is evaluated when
the first descendant named after the anchor is one of the document's root
elements; then the element forest is walked. -/
def shorthandRows (q : Query) (e : WhereExpr) (doc : XmlForest)
    (fn : String) : List ResultRow :=
  (if !isNullCheckTop (some e) &&
      (((findFirstDirectFlag doc
          ((extractFieldPathFromWhere (some e)).components.headD "")).map
        Prod.snd).getD false) &&
      evaluateWhereExpr doc e 0
    then [mkRowF q fn doc] else []) ++
  searchTreeF q fn ((extractFieldPathFromWhere (some e)).components.headD "")
    (isNullCheckTop (some e)) e doc

/-- Anchored WHERE strategy (anchor with 2+ components, lines 500-551):
candidates are the partial-path matches of the anchor's parent path; the
WHERE expression is evaluated relative to each with the parent-path length
as the already-matched depth; one row per passing candidate. -/
def anchoredRows (q : Query) (e : WhereExpr) (doc : XmlForest)
    (fn : String) : List ResultRow :=
  (findNodesByPartialPath doc
      ((extractFieldPathFromWhere (some e)).components.dropLast)).flatMap
    (fun node =>
      if evaluateWhereExpr node.children e
          ((extractFieldPathFromWhere (some e)).components.dropLast).length
        then [mkRowF q fn node.children] else [])

/-- FOR-clause strategy (`processFileWithForClauses`, lines 241-334): the
first FOR clause's iteration nodes are all elements of the clause's name
for a single-component path (whole-document depth-first search), else the
partial-path matches; each node passing the WHERE expression (at depth 0)
yields one row extracted relative to it. -/
def processFileWithForClauses (q : Query) (doc : XmlForest)
    (filename : String) : List ResultRow :=
  match q.for_clauses with
  | [] => []
  | forClause :: _ =>
      let iterationNodes : List XmlTree :=
        match forClause.path.components with
        | [c] => (preorderF doc).filter (fun t => t.name == c)
        | cs => findNodesByPartialPath doc cs
      iterationNodes.flatMap (fun node =>
        if (match q.whereExpr with
            | some e => evaluateWhereExpr node.children e 0
            | none => true)
          then [mkRowF q filename node.children] else [])

/-- `QueryExecutor::processFile` (lines 336-555): load the document (`none`
models the load throwing), then dispatch — FOR clauses first, else plain
projection without WHERE, else the shorthand or anchored WHERE strategy by
the component count of the anchor field. -/
def processFile (file : XFile) (q : Query) : Option (List ResultRow) :=
  match file.doc with
  | none => none
  | some doc =>
      some (
        if !q.for_clauses.isEmpty then
          processFileWithForClauses q doc file.name
        else
          match q.whereExpr with
          | none => plainRows q doc file.name
          | some e =>
              if (extractFieldPathFromWhere (some e)).components.length < 2
                then shorthandRows q e doc file.name
                else anchoredRows q e doc file.name)

/-- The sequential per-file loop shared by `execute` (lines 161-168) and
the non-threaded branch of `executeWithProgress` (lines 763-774): each
file's rows appended in enumeration order, a throwing file caught,
warned about and contributing zero rows. -/
def seqRows (files : List XFile) (q : Query) : List ResultRow :=
  files.flatMap (fun f => (processFile f q).getD [])

/-- Value of a row at the sort-key column: the first pair whose name equals
the key, empty string when absent. -/
def rowValue (row : ResultRow) (key : String) : String :=
  ((row.find? (fun p => p.1 == key)).map Prod.snd).getD ""

/-- The ORDER BY comparator (lines 174-203 and the identical copy at lines
781-808): extract both sort-key values, compare numerically when both parse
as doubles, else fall back to ordinal string comparison (the `catch`). -/
def rowLess (key : String) (a b : ResultRow) : Bool :=
  match stod? (rowValue a key), stod? (rowValue b key) with
  | some x, some y => DecNum.ltb x y
  | _, _ => strLtB (rowValue a key) (rowValue b key)

/-- Stable insertion of a row into a sorted list under a non-strict
comparator. -/
def orderedInsertRow (le : ResultRow → ResultRow → Bool) (r : ResultRow) :
    List ResultRow → List ResultRow
  | [] => [r]
  | x :: xs => if le r x then r :: x :: xs else x :: orderedInsertRow le r xs

/-- Insertion sort on rows: a sorted arrangement under the given
comparator. -/
def insertionSortRows (le : ResultRow → ResultRow → Bool) :
    List ResultRow → List ResultRow
  | [] => []
  | x :: xs => orderedInsertRow le x (insertionSortRows le xs)

/-- ORDER BY post-processing: only the first named field is honored; the
`std::sort` call is modelled by a sort on the non-strict companion of the
comparator (any output of `std::sort` is sorted in exactly this sense; tie
order is unspecified in the source and this picks the stable
representative). -/
def applyOrderBy (fields : List String) (rows : List ResultRow) :
    List ResultRow :=
  match fields with
  | [] => rows
  | key :: _ => insertionSortRows (fun a b => !rowLess key b a) rows

/-- LIMIT post-processing (lines 206-209 / 811-814): truncate only when the
limit is non-negative and strictly below the row count. -/
def applyLimit (limit : Int) (rows : List ResultRow) : List ResultRow :=
  if 0 ≤ limit ∧ limit.toNat < rows.length then rows.take limit.toNat
  else rows

/-- `QueryExecutor::execute` (lines 149-212) with the resolved file list in
place of the `getXmlFiles` filesystem scan: empty list short-circuits, else
sequential processing, then ORDER BY, then LIMIT. -/
def execute (files : List XFile) (q : Query) : List ResultRow :=
  if files.isEmpty then []
  else applyLimit q.limit (applyOrderBy q.order_by_fields (seqRows files q))

/-- `QueryExecutor::getOptimalThreadCount` (lines 624-635); `hw` is the
detected hardware concurrency, `0` meaning undetectable. -/
def getOptimalThreadCount (hw : Nat) : Nat :=
  let hwThreads := if hw == 0 then 4 else hw
  min hwThreads 16

/-- `QueryExecutor::shouldUseThreading` (lines 637-650). -/
def shouldUseThreading (fileCount : Nat) : Bool :=
  let threshold := 5
  decide (threshold ≤ fileCount)

/-- The files of worker `threadId` under strided assignment (`fileIdx =
threadId, threadId + threadCount, …`, line 673), with the rows each
contributes: a throwing file is caught and contributes zero rows.  The
strided loop visits, in increasing order, exactly the indices below
`files.length` that are congruent to `threadId` modulo `threadCount` —
which is this filtered range. -/
def workerRows (files : List XFile) (q : Query)
    (threadCount threadId : Nat) : List ResultRow :=
  ((List.range files.length).filter
      (fun i => i % threadCount == threadId)).flatMap
    (fun i => (processFile (files.getD i default) q).getD [])

/-- `QueryExecutor::executeMultithreaded` (lines 652-704): the merged
shared result set.  Workers append each file's rows under a mutex in a
nondeterministic interleaving; this is the worker-major representative of
that merge, and the multiset of rows is the same for every interleaving. -/
def executeMultithreaded (files : List XFile) (q : Query)
    (threadCount : Nat) : List ResultRow :=
  (List.range threadCount).flatMap (workerRows files q threadCount)

/-- `QueryExecutor::executeWithProgress` (lines 706-824), minus the purely
observational progress thread and wall-clock timing: empty file list
returns early without touching the stats; otherwise the threading decision
fixes the worker count and the stats, the rows are produced by the chosen
mode, and ORDER BY / LIMIT post-processing is applied. -/
def executeWithProgress (files : List XFile) (q : Query) (hw : Nat) :
    List ResultRow × Option ExecutionStats :=
  if files.isEmpty then ([], none)
  else
    let fileCount := files.length
    let useThreading := shouldUseThreading fileCount
    let threadCount := if useThreading then getOptimalThreadCount hw else 1
    let stats : ExecutionStats := ⟨fileCount, threadCount, useThreading⟩
    let allResults :=
      if useThreading then executeMultithreaded files q threadCount
      else seqRows files q
    (applyLimit q.limit (applyOrderBy q.order_by_fields allResults),
      some stats)

/-- The dotted-path formatter of `checkForAmbiguousAttributes`. -/
def pathToString (f : FieldPath) : String :=
  String.intercalate "." f.components

/-- The WHERE-field pass of `checkForAmbiguousAttributes` (lines 596-618):
every condition field of 2+ components with more than one structural match
is appended unless the accumulated list already contains its dotted path;
logical nodes recurse left then right. -/
def checkWhereFields (doc : XmlForest) : WhereExpr → List String →
    List String
  | .cond f _ _ _, acc =>
      if 2 ≤ f.components.length ∧ 1 < countMatchingPaths doc f.components ∧
          !(acc.contains (pathToString f))
        then acc ++ [pathToString f] else acc
  | .logical _ l r, acc =>
      checkWhereFields doc r (checkWhereFields doc l acc)

/-- The SELECT-field pass of `checkForAmbiguousAttributes` (lines 583-592):
source-identifier fields and fields of fewer than 2 components are skipped,
each remaining field with more than one structural match is appended — with
no duplicate check. -/
def selectAmbiguous (doc : XmlForest) (q : Query) : List String :=
  q.select_fields.foldl (fun acc f =>
    if f.include_filename then acc
    else if f.components.length < 2 then acc
    else if 1 < countMatchingPaths doc f.components
      then acc ++ [pathToString f] else acc) []

/-- `QueryExecutor::checkForAmbiguousAttributes` (lines 557-622): load only
the first file of the resolved list (no files, or a failed load, yields no
report), then run the SELECT pass followed by the WHERE pass. -/
def checkForAmbiguousAttributes (files : List XFile) (q : Query) :
    List String :=
  match files.head? with
  | none => []
  | some file =>
      match file.doc with
      | none => []
      | some doc =>
          let sel := selectAmbiguous doc q
          match q.whereExpr with
          | none => sel
          | some e => checkWhereFields doc e sel

/-- Claim-side predicate for C3 (from the spec's words, for comparison with
the code): an element node directly parents the anchor field when some
direct child bears the anchor's element name. -/
def directlyParentsElem (children : XmlForest) (c : String) : Bool :=
  children.anyTop (fun ch => ch.name == c)

/-! ### Concrete sample inputs used by counterexamples and witnesses -/

/-- A document whose element `p` has a named-`c` node nested in an earlier
sibling subtree and a direct child `c`: children of `p` are `x` (containing
`c` with text "5") and `c` with text "7". -/
def c3Doc : XmlForest := .ofList
  [.elem "p" "" (.ofList
    [.elem "x" "" (.ofList [.elem "c" "5" XmlForest.nil]),
     .elem "c" "7" XmlForest.nil])]

/-- WHERE `c != "zzz"` — a single-component (shorthand) anchor, not a null
check, satisfied by every value the sample documents carry. -/
def c3Where : WhereExpr := .cond ⟨["c"], false⟩ .ne "zzz" false

/-- SELECT c FROM … WHERE c != "zzz" (no FOR, no ORDER BY, no LIMIT). -/
def c3Query : Query :=
  { from_path := "d", select_fields := [⟨["c"], false⟩],
    whereExpr := some c3Where, for_clauses := [], order_by_fields := [],
    limit := -1 }

/-- The sample file carrying `c3Doc`. -/
def c3File : XFile := ⟨"f.xml", some c3Doc⟩

/-- A document with two distinct `a`/`b` chains, so the path `a.b` has two
structural matches. -/
def twinDoc : XmlForest := .ofList
  [.elem "r" "" (.ofList
    [.elem "a" "" (.ofList [.elem "b" "x" XmlForest.nil]),
     .elem "a" "" (.ofList [.elem "b" "y" XmlForest.nil])])]

/-- SELECT a.b, a.b (the same ambiguous path twice) with no WHERE. -/
def c9Query : Query :=
  { from_path := "d",
    select_fields := [⟨["a", "b"], false⟩, ⟨["a", "b"], false⟩],
    whereExpr := none, for_clauses := [], order_by_fields := [], limit := -1 }

/-- SELECT b, r FROM … (plain projection over `twinDoc`). -/
def brQuery : Query :=
  { from_path := "d", select_fields := [⟨["b"], false⟩, ⟨["r"], false⟩],
    whereExpr := none, for_clauses := [], order_by_fields := [], limit := -1 }

/-- The sample file carrying `twinDoc`. -/
def twinFile : XFile := ⟨"f.xml", some twinDoc⟩

/-! ### C5 -/

/-- C5: LIMIT truncation happens after ORDER BY — `execute` returns exactly
the first `limit` rows of the post-sort sequence when the limit is present
(non-negative) and below the row count, and the full post-sort sequence
unchanged otherwise. -/
theorem C5_limit_truncates_post_sort (files : List XFile) (q : Query) :
    execute files q =
      (let sorted := applyOrderBy q.order_by_fields (seqRows files q)
       if 0 ≤ q.limit ∧ q.limit.toNat < sorted.length then
         sorted.take q.limit.toNat
       else sorted) := by
  cases hE : files.isEmpty
  · simp only [execute, hE, Bool.false_eq_true, if_false, applyLimit]
  · have hf : files = [] := by
      cases files with
      | nil => rfl
      | cons a l => simp [List.isEmpty] at hE
    subst hf
    have hs : seqRows [] q = [] := rfl
    rw [hs]
    have hord : applyOrderBy q.order_by_fields [] = [] := by
      cases q.order_by_fields with
      | nil => rfl
      | cons k ks => simp [applyOrderBy, insertionSortRows]
    simp [execute, hord]

/-! ### C6 -/

/-- C6: with a non-empty file list, `executeWithProgress` reports threading
exactly when the file count is at least 5; the worker count is then
`min(hardware parallelism, 16)` with fallback 4 when detection reports 0,
and 1 otherwise; `shouldUseThreading` is the `count ≥ 5` test. -/
theorem C6_threading_threshold (files : List XFile) (q : Query) (hw : Nat)
    (h : 0 < files.length) :
    (executeWithProgress files q hw).2 =
      some ⟨files.length,
        (if 5 ≤ files.length then (if hw = 0 then 4 else min hw 16) else 1),
        decide (5 ≤ files.length)⟩ ∧
    (shouldUseThreading files.length = true ↔ 5 ≤ files.length) := by
  have hE : files.isEmpty = false := by
    cases files with
    | nil => simp at h
    | cons a l => rfl
  refine ⟨?_, by simp [shouldUseThreading]⟩
  simp only [executeWithProgress, hE, Bool.false_eq_true, if_false,
    shouldUseThreading, getOptimalThreadCount]
  by_cases h5 : 5 ≤ files.length
  · by_cases h0 : hw = 0
    · simp [h5, h0, Nat.min_def]
    · simp [h5, h0, Nat.min_def]
  · simp [h5]

/-- Witness for C6 at a concrete input: one file, threading off, one
worker. -/
theorem C6_threading_threshold_witness :
    (executeWithProgress [⟨"a.xml", none⟩] brQuery 0).2 =
      some ⟨1, 1, decide (5 ≤ 1)⟩ := by
  have h := C6_threading_threshold [⟨"a.xml", none⟩] brQuery 0 (by decide)
  simpa using h.1

/-! ### C4 -/

/-- C4 counterexample: the ORDER BY comparator is not transitive, hence not
a valid strict weak ordering, on the row values "5", "+9", "-abc" — "5"
and "+9" both parse as doubles (5 < 9), "+9" precedes "-abc" as a string
(the byte '+' is below '-'), yet "5" does not precede "-abc" (the byte '5'
is above '-').  A row list carrying these three values therefore refutes
the claim's "for every row list" strict-weak-ordering assertion. -/
theorem C4_cex_comparator_intransitive :
    rowLess "k" [("k", "5")] [("k", "+9")] = true ∧
    rowLess "k" [("k", "+9")] [("k", "-abc")] = true ∧
    rowLess "k" [("k", "5")] [("k", "-abc")] = false := by
  refine ⟨by decide, by decide, by decide⟩

/-- C4 amended: sorting honors only the first ORDER BY field; the
comparator is total (in the embedding every comparison yields a Bool — the
C++ `catch (...)` guarantees no exception escapes), and on the claim's
example values "10", "2", "abc" the numeric-then-string fallback does
induce a deterministic total order: every arrangement of those three rows
sorts to the same sequence.  The strict-weak-ordering property only fails
on lists like the counterexample's, not on this one. -/
theorem C4_amended_sort_behavior :
    (∀ (key : String) (ks : List String) (rows : List ResultRow),
      applyOrderBy (key :: ks) rows = applyOrderBy [key] rows) ∧
    (∀ a ∈ [[("k", "10")], [("k", "2")], [("k", "abc")]],
      ∀ b ∈ [[("k", "10")], [("k", "2")], [("k", "abc")]],
      (rowLess "k" a b = true ↔
        (rowValue a "k", rowValue b "k") ∈
          [("2", "10"), ("2", "abc"), ("10", "abc")])) ∧
    applyOrderBy ["k"] [[("k", "10")], [("k", "2")], [("k", "abc")]] =
      [[("k", "2")], [("k", "10")], [("k", "abc")]] ∧
    applyOrderBy ["k"] [[("k", "10")], [("k", "abc")], [("k", "2")]] =
      [[("k", "2")], [("k", "10")], [("k", "abc")]] ∧
    applyOrderBy ["k"] [[("k", "2")], [("k", "10")], [("k", "abc")]] =
      [[("k", "2")], [("k", "10")], [("k", "abc")]] ∧
    applyOrderBy ["k"] [[("k", "2")], [("k", "abc")], [("k", "10")]] =
      [[("k", "2")], [("k", "10")], [("k", "abc")]] ∧
    applyOrderBy ["k"] [[("k", "abc")], [("k", "10")], [("k", "2")]] =
      [[("k", "2")], [("k", "10")], [("k", "abc")]] ∧
    applyOrderBy ["k"] [[("k", "abc")], [("k", "2")], [("k", "10")]] =
      [[("k", "2")], [("k", "10")], [("k", "abc")]] := by
  refine ⟨fun key ks rows => rfl, by decide, by decide, by decide, by decide,
    by decide, by decide, by decide⟩

/-! ### C3 -/

/-- C3: evaluation of the shorthand WHERE strategy at the failing input.
In `c3Doc`, two element nodes directly parent the anchor field `c` and both
pass `WHERE c != "zzz"` (the nodes `p` and `x`), so the claim demands two
emitted rows; but the code's eligibility test asks whether the *first
depth-first descendant* named `c` has the visited node as parent, which
fails at `p` (the first such descendant lies inside `x`), so `processFile`
emits exactly one row — contradicting the code's own comment "Check if
this node has the WHERE attribute as a direct child". -/
theorem C3_shorthand_eligibility_bug :
    ((preorderF c3Doc).filter
      (fun t => directlyParentsElem t.children "c" &&
        evaluateWhereExpr t.children c3Where 0)).length = 2 ∧
    (processFile c3File c3Query).getD [] = [[("c", "5")]] ∧
    ((processFile c3File c3Query).getD []).length = 1 := by
  refine ⟨by decide, by decide, by decide⟩

/-! ### C9 -/

/-- C9 counterexample: `checkForAmbiguousAttributes` does not de-duplicate
ambiguous SELECT fields — with the ambiguous path `a.b` selected twice, the
report lists it twice (the duplicate check at lines 607-609 guards only the
WHERE pass). -/
theorem C9_cex_duplicate_select_report :
    checkForAmbiguousAttributes [⟨"f.xml", some twinDoc⟩] c9Query =
      ["a.b", "a.b"] ∧
    ¬ (checkForAmbiguousAttributes [⟨"f.xml", some twinDoc⟩] c9Query).Nodup := by
  refine ⟨by decide, by decide⟩

/-! ### C2 -/

/-- C2: in the plain-projection strategy (no WHERE, no FOR) the row count
is exactly the maximum per-field value-list length, and row `i` pairs each
select field's column name with the `i`-th value of that field's list —
empty string when the list is shorter (`List.getD`). -/
theorem C2_cross_indexing (q : Query) (file : XFile) (doc : XmlForest)
    (h1 : q.for_clauses = []) (h2 : q.whereExpr = none)
    (h3 : file.doc = some doc) :
    ∃ rows, processFile file q = some rows ∧
      rows.length =
        maxResults (q.select_fields.map (fun f => extractValues doc file.name f)) ∧
      ∀ i < rows.length,
        rows[i]? = some
          ((q.select_fields.zip
              (q.select_fields.map (fun f => extractValues doc file.name f))).map
            (fun p => (fieldNameOf p.1, p.2.getD i ""))) := by
  refine ⟨plainRows q doc file.name, ?_, ?_, ?_⟩
  · simp [processFile, h3, h1, h2]
  · by_cases hsel : q.select_fields.isEmpty
    · have hnil : q.select_fields = [] := List.isEmpty_iff.mp hsel
      simp [plainRows, hsel, hnil, maxResults]
    · simp [plainRows, hsel]
  · intro i hi
    rw [plainRows] at hi ⊢
    by_cases hsel : q.select_fields.isEmpty
    · simp [hsel] at hi
    · rw [if_neg hsel] at hi ⊢
      rw [List.length_map, List.length_range] at hi
      rw [List.getElem?_map, List.getElem?_range hi]
      rfl

/-- Witness for C2 at a concrete input: SELECT b, r over `twinDoc` has
value lists of lengths 2 and 1, so two rows are emitted and row 1 pads the
`r` column with the empty string. -/
theorem C2_cross_indexing_witness :
    ∃ rows, processFile twinFile brQuery = some rows ∧
      rows.length =
        maxResults (brQuery.select_fields.map
          (fun f => extractValues twinDoc twinFile.name f)) ∧
      ∀ i < rows.length,
        rows[i]? = some
          ((brQuery.select_fields.zip
              (brQuery.select_fields.map
                (fun f => extractValues twinDoc twinFile.name f))).map
            (fun p => (fieldNameOf p.1, p.2.getD i ""))) :=
  C2_cross_indexing brQuery twinFile twinDoc rfl rfl rfl

/-! ### C1 -/

/-- Membership in a conditional singleton forces equality. -/
theorem mem_ite_singleton {α : Type} {p : Prop} [Decidable p] {x y : α}
    (h : y ∈ (if p then [x] else ([] : List α))) : y = x := by
  split at h
  · simpa using h
  · simp at h

/-- The column names of a node-relative row are the select-field names in
order. -/
theorem mkRowF_map_fst (q : Query) (fn : String) (forest : XmlForest) :
    (mkRowF q fn forest).map Prod.fst = q.select_fields.map fieldNameOf := by
  simp [mkRowF, List.map_map]

/-- The column names of a plain-projection row are the select-field names
in order, provided one value list per field. -/
theorem plainRow_map_fst (q : Query) (frs : List (List String)) (i : Nat)
    (hl : frs.length = q.select_fields.length) :
    (plainRow (q.select_fields.zip frs) i).map Prod.fst =
      q.select_fields.map fieldNameOf := by
  have h1 : (plainRow (q.select_fields.zip frs) i).map Prod.fst =
      ((q.select_fields.zip frs).map Prod.fst).map fieldNameOf := by
    simp [plainRow, List.map_map]
  rw [h1, List.map_fst_zip _ _ (le_of_eq hl.symm)]

mutual
/-- Every row emitted by the shorthand walk at a node has the select-field
column-name sequence. -/
theorem searchTreeT_shape (q : Query) (fn c : String) (isNull : Bool)
    (e : WhereExpr) :
    ∀ (t : XmlTree) (row : ResultRow), row ∈ searchTreeT q fn c isNull e t →
      row.map Prod.fst = q.select_fields.map fieldNameOf
  | .elem n s cs, row, hr => by
      rw [searchTreeT] at hr
      rcases List.mem_append.mp hr with h | h
      · rw [mem_ite_singleton h]
        exact mkRowF_map_fst q fn cs
      · exact searchTreeF_shape q fn c isNull e cs row h

/-- Every row emitted by the shorthand walk over a forest has the
select-field column-name sequence. -/
theorem searchTreeF_shape (q : Query) (fn c : String) (isNull : Bool)
    (e : WhereExpr) :
    ∀ (l : XmlForest) (row : ResultRow), row ∈ searchTreeF q fn c isNull e l →
      row.map Prod.fst = q.select_fields.map fieldNameOf
  | .nil, row, hr => by rw [searchTreeF] at hr; simp at hr
  | .cons t rest, row, hr => by
      rw [searchTreeF] at hr
      rcases List.mem_append.mp hr with h | h
      · exact searchTreeT_shape q fn c isNull e t row h
      · exact searchTreeF_shape q fn c isNull e rest row h
end

/-- C1: under every execution strategy, every row emitted by `processFile`
has exactly one entry per select field, and its column-name sequence equals
the select-field name sequence (`FILE_NAME` for the source-identifier
field, else the last path component), in `select_fields` order. -/
theorem C1_column_order (file : XFile) (q : Query) (rows : List ResultRow)
    (row : ResultRow) (h1 : processFile file q = some rows) (h2 : row ∈ rows) :
    row.map Prod.fst = q.select_fields.map fieldNameOf ∧
    row.length = q.select_fields.length := by
  have hnames : row.map Prod.fst = q.select_fields.map fieldNameOf := by
    cases hdoc : file.doc with
    | none => rw [processFile, hdoc] at h1; cases h1
    | some doc =>
      rw [processFile, hdoc] at h1
      injection h1 with h1
      subst h1
      cases hfc : q.for_clauses with
      | cons fc fcs =>
          have : q.for_clauses.isEmpty = false := by simp [hfc]
          simp only [this, Bool.not_false, if_true] at h2
          rw [processFileWithForClauses, hfc] at h2
          obtain ⟨node, -, hrow⟩ := List.mem_flatMap.mp h2
          rw [mem_ite_singleton hrow]
          exact mkRowF_map_fst q file.name node.children
      | nil =>
          have : q.for_clauses.isEmpty = true := by simp [hfc]
          simp only [this, Bool.not_true, Bool.false_eq_true, if_false] at h2
          cases hw : q.whereExpr with
          | none =>
              rw [hw] at h2
              rw [plainRows] at h2
              by_cases hsel : q.select_fields.isEmpty
              · simp [hsel] at h2
              · simp only [hsel, Bool.false_eq_true, if_false] at h2
                obtain ⟨i, -, hrow⟩ := List.mem_map.mp h2
                rw [← hrow]
                exact plainRow_map_fst q _ i (by simp)
          | some e =>
              rw [hw] at h2
              by_cases hlen :
                  (extractFieldPathFromWhere (some e)).components.length < 2
              · simp only [hlen, if_true] at h2
                rw [shorthandRows] at h2
                rcases List.mem_append.mp h2 with h | h
                · rw [mem_ite_singleton h]
                  exact mkRowF_map_fst q file.name doc
                · exact searchTreeF_shape q file.name _ _ e doc row h
              · simp only [hlen, if_false] at h2
                rw [anchoredRows] at h2
                obtain ⟨node, -, hrow⟩ := List.mem_flatMap.mp h2
                rw [mem_ite_singleton hrow]
                exact mkRowF_map_fst q file.name node.children
  refine ⟨hnames, ?_⟩
  have := congrArg List.length hnames
  simpa using this

/-- Witness for C1 at a concrete input: a plain-projection row of
`brQuery` over `twinDoc`. -/
theorem C1_column_order_witness :
    (([("b", "x"), ("r", "")] : ResultRow).map Prod.fst =
      brQuery.select_fields.map fieldNameOf) ∧
    ([("b", "x"), ("r", "")] : ResultRow).length =
      brQuery.select_fields.length :=
  C1_column_order twinFile brQuery
    [[("b", "x"), ("r", "")], [("b", "y"), ("r", "")]]
    [("b", "x"), ("r", "")] (by decide) (by decide)

/-! ### C8 -/

/-- Sorting an empty row list yields the empty list. -/
theorem applyOrderBy_nil (fields : List String) :
    applyOrderBy fields [] = [] := by
  cases fields with
  | nil => rfl
  | cons k ks => rfl

/-- Truncating an empty row list yields the empty list. -/
theorem applyLimit_nil (limit : Int) : applyLimit limit [] = [] := by
  simp [applyLimit]

/-- C8: a failing file contributes zero rows and the batch continues — the
sequential row stream over any file list equals the stream over its
non-failing files alone, and so does the final `execute` result (ORDER BY
and LIMIT included). -/
theorem C8_per_file_failure_isolation (files : List XFile) (q : Query) :
    seqRows files q =
      seqRows (files.filter (fun f => (processFile f q).isSome)) q ∧
    execute files q =
      execute (files.filter (fun f => (processFile f q).isSome)) q := by
  have hseq : ∀ (fs : List XFile),
      seqRows fs q =
        seqRows (fs.filter (fun f => (processFile f q).isSome)) q := by
    intro fs
    induction fs with
    | nil => rfl
    | cons f fs ih =>
        rw [seqRows, List.flatMap_cons, List.filter_cons]
        cases hf : processFile f q with
        | none =>
            simp only [hf, Option.isSome_none, Bool.false_eq_true, if_false,
              Option.getD_none, List.nil_append]
            rw [← seqRows, ih]
        | some rs =>
            simp only [hf, Option.isSome_some, if_true, Option.getD_some]
            rw [seqRows, List.flatMap_cons, hf, Option.getD_some, ← seqRows,
              ← seqRows, ih]
  refine ⟨hseq files, ?_⟩
  by_cases hE : files.isEmpty
  · have hnil : files = [] := List.isEmpty_iff.mp hE
    subst hnil
    rfl
  · by_cases hF : (files.filter (fun f => (processFile f q).isSome)).isEmpty
    · have h0 : seqRows files q = [] := by
        rw [hseq files, List.isEmpty_iff.mp hF]
        rfl
      rw [execute, if_neg (by simp [hE]), execute, if_pos (by simp [hF]), h0,
        applyOrderBy_nil, applyLimit_nil]
    · rw [execute, if_neg (by simp [hE]), execute, if_neg (by simp [hF]),
        hseq files]

/-! ### C10 -/

/-- C10: below the threading threshold, `executeWithProgress` (with no
observers) returns exactly what `execute` returns — both process the files
sequentially in enumeration order and share the ORDER BY / LIMIT
post-processing. -/
theorem C10_entry_points_agree (files : List XFile) (q : Query) (hw : Nat)
    (h : files.length < 5) :
    (executeWithProgress files q hw).1 = execute files q := by
  by_cases hE : files.isEmpty
  · simp [executeWithProgress, execute, hE]
  · have hsu : shouldUseThreading files.length = false := by
      simp only [shouldUseThreading, decide_eq_false_iff_not]
      omega
    simp [executeWithProgress, execute, hE, hsu]

/-- Witness for C10 at a concrete input: one file, so both entry points
run sequentially. -/
theorem C10_entry_points_agree_witness :
    (executeWithProgress [twinFile] brQuery 0).1 = execute [twinFile] brQuery :=
  C10_entry_points_agree [twinFile] brQuery 0 (by decide)

/-! ### C7 -/

/-- Filtering the worker-id range for a fixed residue keeps exactly that
residue. -/
theorem filter_range_eq_singleton :
    ∀ (T m : Nat), m < T →
      (List.range T).filter (fun k => m == k) = [m] := by
  intro T
  induction T with
  | zero => intro m hm; omega
  | succ n ih =>
      intro m hm
      rw [List.range_succ, List.filter_append]
      by_cases h : m < n
      · rw [ih m h]
        have h2 : List.filter (fun k => m == k) [n] = [] := by
          simp only [List.filter_cons, List.filter_nil, beq_iff_eq]
          have : ¬ m = n := by omega
          simp [this]
        rw [h2, List.append_nil]
      · have hmn : m = n := by omega
        subst hmn
        have h1 : (List.range m).filter (fun k => m == k) = [] := by
          rw [List.filter_eq_nil_iff]
          intro a ha
          have : a < m := List.mem_range.mp ha
          simp only [beq_iff_eq]
          omega
        rw [h1]
        simp

/-- The indicator sum over the worker-id range picks each residue once. -/
theorem sum_range_indicator :
    ∀ (T m : Nat), m < T →
      (List.map (fun k => if m = k then 1 else 0) (List.range T)).sum = 1 := by
  intro T
  induction T with
  | zero => intro m hm; omega
  | succ n ih =>
      intro m hm
      rw [List.range_succ, List.map_append, List.sum_append]
      by_cases h : m < n
      · rw [ih m h]
        have : ¬ m = n := by omega
        simp [this]
      · have hmn : m = n := by omega
        subst hmn
        have h0 : (List.map (fun k => if m = k then 1 else 0)
            (List.range m)).sum = 0 := by
          apply List.sum_eq_zero
          intro y hy
          obtain ⟨k, hk, rfl⟩ := List.mem_map.mp hy
          have : k < m := List.mem_range.mp hk
          have : ¬ m = k := by omega
          simp [this]
        rw [h0]
        simp

/-- Strided assignment partitions the index range: concatenating the
per-worker index lists permutes the full range. -/
theorem range_mod_partition_perm (T n : Nat) (hT : 0 < T) :
    ((List.range T).flatMap
        (fun k => (List.range n).filter (fun i => i % T == k))).Perm
      (List.range n) := by
  rw [List.perm_iff_count]
  intro x
  rw [List.count_flatMap]
  by_cases hx : x < n
  · have hmem : x ∈ List.range n := List.mem_range.mpr hx
    have hcnt : (List.range n).count x = 1 :=
      List.count_eq_one_of_mem (List.nodup_range n) hmem
    rw [hcnt]
    have hterm : ∀ k ∈ List.range T,
        (List.count x ∘ fun k => (List.range n).filter (fun i => i % T == k)) k
          = (fun k => if x % T = k then 1 else 0) k := by
      intro k _
      simp only [Function.comp]
      by_cases hk : x % T = k
      · rw [if_pos hk]
        rw [List.count_filter (by simp [hk])]
        exact hcnt
      · rw [if_neg hk]
        refine List.count_eq_zero_of_not_mem ?_
        intro hmem2
        have h2 := (List.mem_filter.mp hmem2).2
        simp only [beq_iff_eq] at h2
        exact hk h2
    rw [List.map_congr_left hterm]
    exact sum_range_indicator T (x % T) (Nat.mod_lt x hT)
  · have hcnt : (List.range n).count x = 0 :=
      List.count_eq_zero_of_not_mem (by
        intro hmem
        exact hx (List.mem_range.mp hmem))
    rw [hcnt]
    apply List.sum_eq_zero
    intro y hy
    obtain ⟨k, -, rfl⟩ := List.mem_map.mp hy
    simp only [Function.comp]
    refine List.count_eq_zero_of_not_mem ?_
    intro hmem2
    have h2 := (List.mem_filter.mp hmem2).1
    exact hx (List.mem_range.mp h2)

/-- The sequential stream is the index-driven stream over the file
range. -/
theorem seqRows_eq_range_flatMap (files : List XFile) (q : Query) :
    seqRows files q =
      (List.range files.length).flatMap
        (fun i => (processFile (files.getD i default) q).getD []) := by
  induction files with
  | nil => rfl
  | cons f fs ih =>
      rw [seqRows, List.flatMap_cons, List.length_cons,
        List.range_succ_eq_map, List.flatMap_cons, List.flatMap_map]
      have harg : (fun i =>
          (processFile ((f :: fs).getD (Nat.succ i) default) q).getD []) =
          (fun i => (processFile (fs.getD i default) q).getD []) := by
        funext i
        rw [List.getD_cons_succ]
      rw [List.getD_cons_zero]
      rw [harg, ← ih, ← seqRows]

/-- C7: strided assignment sends every file index to exactly one worker
(worker `i % threadCount` and no other), and the merged multithreaded
result set is a permutation of the sequential one — same multiset of rows,
only cross-file order may differ. -/
theorem C7_strided_assignment (files : List XFile) (q : Query) (T : Nat)
    (hT : 0 < T) :
    (∀ i < files.length,
      (List.range T).filter (fun k => i % T == k) = [i % T]) ∧
    (executeMultithreaded files q T).Perm (seqRows files q) := by
  constructor
  · intro i _
    exact filter_range_eq_singleton T (i % T) (Nat.mod_lt i hT)
  · have h1 : executeMultithreaded files q T =
        ((List.range T).flatMap
          (fun k => (List.range files.length).filter
            (fun i => i % T == k))).flatMap
          (fun i => (processFile (files.getD i default) q).getD []) := by
      rw [List.flatMap_assoc]
      rfl
    rw [h1, seqRows_eq_range_flatMap]
    exact (range_mod_partition_perm T files.length hT).flatMap_right _

/-- Witness for C7 at a concrete input: two files, two workers. -/
theorem C7_strided_assignment_witness :
    (executeMultithreaded [twinFile, c3File] brQuery 2).Perm
      (seqRows [twinFile, c3File] brQuery) :=
  (C7_strided_assignment [twinFile, c3File] brQuery 2 (by decide)).2

/-- The condition fields of a WHERE tree, left to right. -/
def condFields : WhereExpr → List FieldPath
  | .cond f _ _ _ => [f]
  | .logical _ l r => condFields l ++ condFields r

/-- The WHERE pass preserves duplicate-freeness, only appends, appends
only dotted paths of qualifying condition fields (2+ components, more than
one structural match) that were not already reported — and, conversely,
after it every qualifying condition field's dotted path is present (either
it was already in the accumulator, or it gets appended). -/
theorem checkWhereFields_spec (doc : XmlForest) :
    ∀ (e : WhereExpr) (acc : List String),
      (acc.Nodup → (checkWhereFields doc e acc).Nodup) ∧
      (∃ t, checkWhereFields doc e acc = acc ++ t) ∧
      (∀ s ∈ checkWhereFields doc e acc, s ∈ acc ∨
        ∃ f ∈ condFields e, s = pathToString f ∧ 2 ≤ f.components.length ∧
          1 < countMatchingPaths doc f.components) ∧
      (∀ f ∈ condFields e, 2 ≤ f.components.length →
        1 < countMatchingPaths doc f.components →
        pathToString f ∈ checkWhereFields doc e acc) := by
  intro e
  induction e with
  | cond f op lit hint =>
      intro acc
      rw [checkWhereFields]
      by_cases hc : 2 ≤ f.components.length ∧
          1 < countMatchingPaths doc f.components ∧
          !(acc.contains (pathToString f))
      · rw [if_pos hc]
        have hnm : pathToString f ∉ acc := by
          have := hc.2.2
          simpa using this
        refine ⟨?_, ⟨[pathToString f], rfl⟩, ?_, ?_⟩
        · intro hacc
          rw [List.nodup_append]
          exact ⟨hacc, List.nodup_singleton _, by
            intro a ha hb
            rw [List.mem_singleton.mp hb] at ha
            exact hnm ha⟩
        · intro s hs
          rcases List.mem_append.mp hs with h | h
          · exact Or.inl h
          · refine Or.inr ⟨f, List.mem_singleton.mpr rfl,
              List.mem_singleton.mp h, hc.1, hc.2.1⟩
        · intro g hg _ _
          rw [condFields] at hg
          have hgf : g = f := List.mem_singleton.mp hg
          subst hgf
          exact List.mem_append.mpr (Or.inr (List.mem_singleton.mpr rfl))
      · rw [if_neg hc]
        refine ⟨fun h => h, ⟨[], (List.append_nil acc).symm⟩,
          fun s hs => Or.inl hs, ?_⟩
        intro g hg hg2 hg3
        rw [condFields] at hg
        have hgf : g = f := List.mem_singleton.mp hg
        subst hgf
        by_cases hx : acc.contains (pathToString g) = true
        · simpa using hx
        · exact absurd ⟨hg2, hg3, by rw [eq_false_of_ne_true hx]; rfl⟩ hc
  | logical op l r ihl ihr =>
      intro acc
      rw [checkWhereFields]
      obtain ⟨nl, ⟨t1, el⟩, ml, cl⟩ := ihl acc
      obtain ⟨nr, ⟨t2, er⟩, mr, cr⟩ := ihr (checkWhereFields doc l acc)
      refine ⟨fun h => nr (nl h),
        ⟨t1 ++ t2, by rw [er, el, List.append_assoc]⟩, ?_, ?_⟩
      · intro s hs
        rcases mr s hs with h | ⟨f, hf, rest⟩
        · rcases ml s h with h2 | ⟨f, hf, rest⟩
          · exact Or.inl h2
          · exact Or.inr ⟨f, by
              rw [condFields]
              exact List.mem_append.mpr (Or.inl hf), rest⟩
        · exact Or.inr ⟨f, by
            rw [condFields]
            exact List.mem_append.mpr (Or.inr hf), rest⟩
      · intro g hg hg2 hg3
        rw [condFields] at hg
        rcases List.mem_append.mp hg with hgl | hgr
        · rw [er]
          exact List.mem_append.mpr (Or.inl (cl g hgl hg2 hg3))
        · exact cr g hgr hg2 hg3

/-- The SELECT pass is the qualifying fields' dotted paths appended to the
accumulator, in field order. -/
theorem selectAmbiguous_foldl (doc : XmlForest) :
    ∀ (fs : List FieldPath) (acc : List String),
      fs.foldl (fun acc f =>
        if f.include_filename then acc
        else if f.components.length < 2 then acc
        else if 1 < countMatchingPaths doc f.components
          then acc ++ [pathToString f] else acc) acc =
      acc ++ (fs.filter (fun f => !f.include_filename &&
          !decide (f.components.length < 2) &&
          decide (1 < countMatchingPaths doc f.components))).map pathToString := by
  intro fs
  induction fs with
  | nil => intro acc; simp
  | cons f fs ih =>
      intro acc
      rw [List.foldl_cons, List.filter_cons]
      by_cases h1 : f.include_filename
      · simp only [h1, if_true, Bool.not_true, Bool.false_and,
          Bool.false_eq_true, if_false]
        exact ih acc
      · simp only [h1, Bool.false_eq_true, if_false, Bool.not_false,
          Bool.true_and]
        by_cases h2 : f.components.length < 2
        · rw [if_pos h2, decide_eq_true h2]
          simp only [Bool.not_true, Bool.false_and, Bool.false_eq_true,
            if_false]
          exact ih acc
        · rw [if_neg h2, decide_eq_false h2]
          simp only [Bool.not_false, Bool.true_and]
          by_cases h3 : 1 < countMatchingPaths doc f.components
          · rw [if_pos h3, decide_eq_true h3]
            simp only [if_true, List.map_cons]
            rw [ih (acc ++ [pathToString f]), List.append_assoc]
            rfl
          · rw [if_neg h3, decide_eq_false h3]
            simp only [Bool.false_eq_true, if_false]
            exact ih acc

/-- `selectAmbiguous` as a filter-then-map. -/
theorem selectAmbiguous_eq (doc : XmlForest) (q : Query) :
    selectAmbiguous doc q =
      (q.select_fields.filter (fun f => !f.include_filename &&
        !decide (f.components.length < 2) &&
        decide (1 < countMatchingPaths doc f.components))).map pathToString := by
  rw [selectAmbiguous, selectAmbiguous_foldl, List.nil_append]

/-- C9 (amended): when the ambiguous select paths are pairwise distinct,
the whole report is duplicate-free (the WHERE pass de-duplicates against
everything already reported, covering a path in both SELECT and WHERE); the
report starts with the SELECT pass's entries; every reported string is the
dotted path of a select field or a WHERE condition field with 2+
components, more than one structural match, and (for SELECT) no
source-identifier flag; and conversely every such qualifying field —
whether from SELECT or from the WHERE tree — has its dotted path in the
report. -/
theorem C9_amended_dedup_characterization (files : List XFile) (q : Query)
    (file : XFile) (doc : XmlForest) (h1 : files.head? = some file)
    (h2 : file.doc = some doc) (h3 : (selectAmbiguous doc q).Nodup) :
    (checkForAmbiguousAttributes files q).Nodup ∧
    (∃ t, checkForAmbiguousAttributes files q = selectAmbiguous doc q ++ t) ∧
    (∀ s ∈ checkForAmbiguousAttributes files q,
      (∃ f ∈ q.select_fields, ¬ f.include_filename ∧ s = pathToString f ∧
        2 ≤ f.components.length ∧ 1 < countMatchingPaths doc f.components) ∨
      (∃ e, q.whereExpr = some e ∧ ∃ f ∈ condFields e, s = pathToString f ∧
        2 ≤ f.components.length ∧ 1 < countMatchingPaths doc f.components)) ∧
    (∀ f : FieldPath,
      ((f ∈ q.select_fields ∧ ¬ f.include_filename) ∨
        (∃ e, q.whereExpr = some e ∧ f ∈ condFields e)) →
      2 ≤ f.components.length → 1 < countMatchingPaths doc f.components →
      pathToString f ∈ checkForAmbiguousAttributes files q) := by
  have hsel : ∀ s ∈ selectAmbiguous doc q,
      ∃ f ∈ q.select_fields, ¬ f.include_filename ∧ s = pathToString f ∧
        2 ≤ f.components.length ∧ 1 < countMatchingPaths doc f.components := by
    intro s hs
    rw [selectAmbiguous_eq] at hs
    obtain ⟨f, hf, rfl⟩ := List.mem_map.mp hs
    obtain ⟨hmem, hp⟩ := List.mem_filter.mp hf
    simp only [Bool.and_eq_true, Bool.not_eq_true', decide_eq_false_iff_not,
      decide_eq_true_eq] at hp
    exact ⟨f, hmem, by simp [hp.1.1], rfl, by omega, hp.2⟩
  have hselc : ∀ f ∈ q.select_fields, ¬ f.include_filename →
      2 ≤ f.components.length → 1 < countMatchingPaths doc f.components →
      pathToString f ∈ selectAmbiguous doc q := by
    intro f hf hif hf2 hf3
    rw [selectAmbiguous_eq]
    refine List.mem_map.mpr ⟨f, List.mem_filter.mpr ⟨hf, ?_⟩, rfl⟩
    simp only [Bool.and_eq_true, Bool.not_eq_true', decide_eq_false_iff_not,
      decide_eq_true_eq]
    exact ⟨⟨by simpa using hif, by omega⟩, hf3⟩
  have hmain : checkForAmbiguousAttributes files q =
      (match q.whereExpr with
        | none => selectAmbiguous doc q
        | some e => checkWhereFields doc e (selectAmbiguous doc q)) := by
    simp only [checkForAmbiguousAttributes, h1, h2]
  cases hw : q.whereExpr with
  | none =>
      rw [hmain, hw]
      refine ⟨h3, ⟨[], (List.append_nil _).symm⟩,
        fun s hs => Or.inl (hsel s hs), ?_⟩
      intro f hor hf2 hf3
      rcases hor with ⟨hf, hif⟩ | ⟨e, he, -⟩
      · exact hselc f hf hif hf2 hf3
      · cases he
  | some e =>
      rw [hmain, hw]
      obtain ⟨hn, hpre, hm, hcomp⟩ :=
        checkWhereFields_spec doc e (selectAmbiguous doc q)
      refine ⟨hn h3, hpre, ?_, ?_⟩
      · intro s hs
        rcases hm s hs with h | ⟨f, hf, rest⟩
        · exact Or.inl (hsel s h)
        · exact Or.inr ⟨e, rfl, f, hf, rest⟩
      · intro f hor hf2 hf3
        rcases hor with ⟨hf, hif⟩ | ⟨e2, he2, hfc⟩
        · show pathToString f ∈ checkWhereFields doc e (selectAmbiguous doc q)
          obtain ⟨t, ht⟩ := hpre
          rw [ht]
          exact List.mem_append.mpr (Or.inl (hselc f hf hif hf2 hf3))
        · injection he2 with he2
          subst he2
          exact hcomp f hfc hf2 hf3

/-- SELECT r WHERE a.b = "x": the ambiguous path `a.b` occurs only in the
WHERE clause (the single-component select field is never reported). -/
def c9wQuery : Query :=
  { from_path := "d", select_fields := [⟨["r"], false⟩],
    whereExpr := some (.cond ⟨["a", "b"], false⟩ .eq "x" false),
    for_clauses := [], order_by_fields := [], limit := -1 }

/-- Witness for the amended C9 at a concrete input: a qualifying field
occurring only in the WHERE clause is reported, and the report is
duplicate-free. -/
theorem C9_amended_dedup_characterization_witness :
    pathToString ⟨["a", "b"], false⟩ ∈
      checkForAmbiguousAttributes [⟨"f.xml", some twinDoc⟩] c9wQuery ∧
    (checkForAmbiguousAttributes [⟨"f.xml", some twinDoc⟩] c9wQuery).Nodup := by
  have h := C9_amended_dedup_characterization [⟨"f.xml", some twinDoc⟩]
    c9wQuery ⟨"f.xml", some twinDoc⟩ twinDoc rfl rfl (by decide)
  refine ⟨?_, h.1⟩
  exact h.2.2.2 ⟨["a", "b"], false⟩
    (Or.inr ⟨.cond ⟨["a", "b"], false⟩ .eq "x" false, rfl, by decide⟩)
    (by decide) (by decide)
